import Mathlib

set_option maxHeartbeats 1000000

/-!
Verification development for the connection/session registry and broadcast
fan-out engine of the telegram-mini-app-chat repository.

The repository contains two variants of the WebSocket `ConnectionManager`
class: `src/backend/main.py` (namespace `Backend` below) and `src/app.py`
(namespace `App` below).  Both keep a module-level Python dict
`active_connections : chat_id -> (user_id -> WebSocket)`.

Python dicts are embedded as insertion-ordered association lists with unique
keys: assignment `d[k] = v` replaces the value of an existing key in place
(keeping its position) or appends a fresh key at the end; `del d[k]` removes
the entry; iteration yields entries in insertion order.  CPython raises
`RuntimeError: dictionary changed size during iteration` at the next call of
the iterator after the dict's size changed, which both `broadcast` variants
trigger when a failed send makes them delete the failing entry from the very
dict being iterated; the embedding models this faithfully via the `modified`
flag of the broadcast loop and the `raised` field of its result.
-/

/-- One live WebSocket connection object.  `sid` models Python object
identity; the failure model of a broadcast is a function `fails : Nat → Bool`
saying for which socket `send_json` raises. -/
structure WS where
  sid : Nat
deriving DecidableEq, Repr

/-- Outbound JSON events relevant to the registry/presence core.
`userConnected`/`userDisconnected` are the presence payloads of
`src/backend/main.py` (types `"user_connected"`/`"user_disconnected"`,
carrying the acting user id and `online_count`); `userOnline` is the
`"user_online"` payload of `src/app.py`; `other` abstracts any other payload
(`new_message`, `user_typing`, ...). -/
inductive Msg where
  | userConnected (user_id : Nat) (online_count : Nat)
  | userDisconnected (user_id : Nat) (online_count : Nat)
  | userOnline (user_id : Nat) (online_count : Nat)
  | other (tag : Nat)
deriving DecidableEq, Repr

/-- Observable side effects on individual sockets. -/
inductive Eff where
  | accepted (ws : WS)
  | sent (ws : WS) (m : Msg)
  | sendFailed (ws : WS) (m : Msg)
  | closed (ws : WS)
deriving DecidableEq, Repr

/-- Python dict lookup `d.get(k)` on the association-list embedding. -/
def dlookup {α : Type} (l : List (Nat × α)) (k : Nat) : Option α :=
  match l with
  | [] => none
  | (k₁, v₁) :: t => if k₁ = k then some v₁ else dlookup t k

/-- Python dict assignment `d[k] = v`: replace in place or append. -/
def dset {α : Type} (l : List (Nat × α)) (k : Nat) (v : α) : List (Nat × α) :=
  match l with
  | [] => [(k, v)]
  | (k₁, v₁) :: t => if k₁ = k then (k₁, v) :: t else (k₁, v₁) :: dset t k v

/-- Python dict deletion `del d[k]` (removes the unique entry of key `k`). -/
def ddel {α : Type} (l : List (Nat × α)) (k : Nat) : List (Nat × α) :=
  match l with
  | [] => []
  | (k₁, v₁) :: t => if k₁ = k then t else (k₁, v₁) :: ddel t k

/-- Python membership test `k in d`. -/
def dmem {α : Type} (l : List (Nat × α)) (k : Nat) : Bool :=
  (dlookup l k).isSome

/-- Number of entries of a given key (a real dict always has 0 or 1). -/
def countKey {α : Type} (l : List (Nat × α)) (k : Nat) : Nat :=
  l.countP (fun p => p.1 == k)

/-- Keys of an association list are pairwise distinct, as in a real dict. -/
def NodupKeys {α : Type} (l : List (Nat × α)) : Prop :=
  (l.map Prod.fst).Nodup

instance {α : Type} (l : List (Nat × α)) : Decidable (NodupKeys l) := by
  unfold NodupKeys; infer_instance

/-- `user_id -> WebSocket`: one room of `active_connections`. -/
abbrev Room : Type := List (Nat × WS)

/-- `chat_id -> (user_id -> WebSocket)`: the whole `active_connections`. -/
abbrev Registry : Type := List (Nat × Room)

/-- The room stored for a chat, defaulting to the empty dict. -/
def roomOf (reg : Registry) (chat : Nat) : Room :=
  (dlookup reg chat).getD []

/-- Both dict levels of the registry have unique keys — true of every state a
Python dict of dicts can be in. -/
def WF (reg : Registry) : Prop :=
  NodupKeys reg ∧ ∀ p ∈ reg, NodupKeys p.2

instance (reg : Registry) : Decidable (WF reg) := by
  unfold WF; infer_instance

/-- Is session `s` stored anywhere in the registry? -/
def storedB (reg : Registry) (s : WS) : Bool :=
  reg.any (fun p => p.2.any (fun q => q.2 == s))

namespace Backend

/-- Result of `ConnectionManager.broadcast_to_chat` from `src/backend/main.py`:
final registry, per-socket effects in order, broadcasts scheduled by
`asyncio.create_task` inside nested `disconnect` calls, and whether the loop
aborted with the CPython `RuntimeError` for a dict mutated during
iteration. -/
structure BCResult where
  reg : Registry
  effs : List Eff
  sched : List (Nat × Msg)
  raised : Bool
deriving Repr

/-- Result of `ConnectionManager.disconnect` from `src/backend/main.py`:
final registry plus the `broadcast_to_chat` coroutine scheduled via
`asyncio.create_task` (its chat id and message, whose `online_count` was
computed eagerly at scheduling time). -/
structure DiscResult where
  reg : Registry
  scheduled : Option (Nat × Msg)
deriving Repr

/-- Result of `ConnectionManager.connect` from `src/backend/main.py`.
`announce` records the presence message it passed to `broadcast_to_chat`. -/
structure ConnResult where
  reg : Registry
  effs : List Eff
  sched : List (Nat × Msg)
  raised : Bool
  announce : Msg
deriving Repr

/-- `ConnectionManager.disconnect(chat_id, user_id)` of `src/backend/main.py`:
if the entry exists it is deleted, a `user_disconnected` broadcast is
scheduled with `online_count = len(self.active_connections.get(chat_id, {}))`
evaluated after the deletion, and the chat entry is pruned if now empty.
Note the function receives no session argument. -/
def disconnect (reg : Registry) (chat user : Nat) : DiscResult :=
  match dlookup reg chat with
  | none => ⟨reg, none⟩
  | some room =>
    if dmem room user then
      let room1 := ddel room user
      let reg1 := dset reg chat room1
      let msg := Msg.userDisconnected user room1.length
      let reg2 := if room1.isEmpty then ddel reg1 chat else reg1
      ⟨reg2, some (chat, msg)⟩
    else ⟨reg, none⟩

/-- The `for user_id, connection in self.active_connections[chat_id].items()`
loop of `broadcast_to_chat`.  `entries` is the room's entry sequence when the
iterator was created; `modified` records whether the dict's size has changed,
in which case the next call into the iterator raises `RuntimeError` (CPython
checks the size before checking exhaustion, so this happens even after the
last entry). -/
def bcLoop (fails : Nat → Bool) (chat : Nat) (msg : Msg) (excl : Option Nat) :
    List (Nat × WS) → Registry → List Eff → List (Nat × Msg) → Bool → BCResult
  | [], reg, effs, sched, modified => ⟨reg, effs, sched, modified⟩
  | (user, ws) :: rest, reg, effs, sched, modified =>
    if modified then ⟨reg, effs, sched, true⟩
    else if some user = excl then
      bcLoop fails chat msg excl rest reg effs sched false
    else if fails ws.sid then
      let d := disconnect reg chat user
      bcLoop fails chat msg excl rest d.reg (effs ++ [Eff.sendFailed ws msg])
        (sched ++ d.scheduled.toList) true
    else
      bcLoop fails chat msg excl rest reg (effs ++ [Eff.sent ws msg]) sched false

/-- `ConnectionManager.broadcast_to_chat(chat_id, message, exclude_user)` of
`src/backend/main.py`: nothing happens if the chat has no entry; otherwise
iterate the room, skip the excluded user, and on a send failure log, call
`self.disconnect(chat_id, user_id)` and continue — which mutates the dict
being iterated. -/
def broadcast_to_chat (fails : Nat → Bool) (reg : Registry) (chat : Nat)
    (msg : Msg) (excl : Option Nat) : BCResult :=
  match dlookup reg chat with
  | none => ⟨reg, [], [], false⟩
  | some room => bcLoop fails chat msg excl room reg [] [] false

/-- `ConnectionManager.connect(websocket, chat_id, user_id)` of
`src/backend/main.py`: accept the socket, create the chat entry if missing,
assign `active_connections[chat_id][user_id] = websocket` (replacing any
previous socket of that user without closing or returning it), then broadcast
`user_connected` with `online_count = len(active_connections[chat_id])` taken
after the assignment, excluding the connecting user. -/
def connect (fails : Nat → Bool) (reg : Registry) (chat user : Nat) (ws : WS) :
    ConnResult :=
  let reg1 := if dmem reg chat then reg else dset reg chat []
  let room1 := roomOf reg1 chat
  let room2 := dset room1 user ws
  let reg2 := dset reg1 chat room2
  let msg := Msg.userConnected user room2.length
  let b := broadcast_to_chat fails reg2 chat msg (some user)
  ⟨b.reg, Eff.accepted ws :: b.effs, b.sched, b.raised, msg⟩

/-- Registry state of `connect` just after the dict assignment, before its
presence broadcast runs. -/
def connectPre (reg : Registry) (chat user : Nat) (ws : WS) : Registry :=
  let reg1 := if dmem reg chat then reg else dset reg chat []
  dset reg1 chat (dset (roomOf reg1 chat) user ws)

/-- Modelled from the spec: the Registry contract of section 4.1 gives
`Remove(room, user, session)` a session argument and removes the entry
"only if the stored session is identical to `session`", pruning an emptied
room; no function of the source takes such an argument, so this definition
follows the spec's words and is compared against the source's
`disconnect`. -/
def removeSpec (reg : Registry) (chat user : Nat) (session : WS) : Registry :=
  match dlookup reg chat with
  | none => reg
  | some room =>
    match dlookup room user with
    | none => reg
    | some stored =>
      if stored = session then
        let room1 := ddel room user
        let reg1 := dset reg chat room1
        if room1.isEmpty then ddel reg1 chat else reg1
      else reg

/-- Operations driving the manager of `src/backend/main.py`: the WebSocket
endpoint calls `connect` on arrival and `disconnect` on any termination, and
message/typing handlers (and the coroutines scheduled by `disconnect`) call
`broadcast_to_chat`. -/
inductive Op where
  | connect (chat user : Nat) (ws : WS) (fails : Nat → Bool)
  | disconnect (chat user : Nat)
  | broadcast (chat : Nat) (msg : Msg) (excl : Option Nat) (fails : Nat → Bool)

/-- Registry produced by one operation. -/
def runOp (reg : Registry) : Op → Registry
  | .connect chat user ws fails => (connect fails reg chat user ws).reg
  | .disconnect chat user => (disconnect reg chat user).reg
  | .broadcast chat msg excl fails => (broadcast_to_chat fails reg chat msg excl).reg

/-- Registry after a finite sequence of operations. -/
def run (reg : Registry) : List Op → Registry
  | [] => reg
  | op :: t => run (runOp reg op) t

/-- One operation's registry together with the socket effects it produced
(`disconnect` itself touches no socket; the broadcast it schedules runs later
as a `Op.broadcast` step of its own). -/
def stepT (reg : Registry) : Op → Registry × List Eff
  | .connect chat user ws fails =>
    let c := connect fails reg chat user ws
    (c.reg, c.effs)
  | .disconnect chat user => ((disconnect reg chat user).reg, [])
  | .broadcast chat msg excl fails =>
    let b := broadcast_to_chat fails reg chat msg excl
    (b.reg, b.effs)

/-- Final registry and concatenated effect trace of a sequence of
operations. -/
def runT (reg : Registry) : List Op → Registry × List Eff
  | [] => (reg, [])
  | op :: t =>
    let s := stepT reg op
    let r := runT s.1 t
    (r.1, s.2 ++ r.2)

/-- Does the operation register session `s` (only `connect` ever adds a
session to the registry)? -/
def opAdds (op : Op) (s : WS) : Bool :=
  match op with
  | .connect _ _ ws _ => ws == s
  | _ => false

end Backend

namespace App

/-- Result of `ConnectionManager.broadcast` from `src/app.py`; same shape as
the backend variant but its nested `disconnect` schedules nothing. -/
structure BCResult where
  reg : Registry
  effs : List Eff
  raised : Bool
deriving Repr

/-- Result of `ConnectionManager.connect` from `src/app.py`.  `announce`
records the `user_online` message it passed to `broadcast`. -/
structure ConnResult where
  reg : Registry
  effs : List Eff
  raised : Bool
  announce : Msg
deriving Repr

/-- `ConnectionManager.disconnect(user_id)` of `src/app.py`: delete the
user's entry from room 1 if present, prune room 1 if now empty.  The second
component is the list of broadcasts it issues or schedules — this variant
notifies nobody, so it is always empty. -/
def disconnect (reg : Registry) (user : Nat) : Registry × List (Nat × Msg) :=
  match dlookup reg 1 with
  | none => (reg, [])
  | some room =>
    if dmem room user then
      let room1 := ddel room user
      let reg1 := dset reg 1 room1
      (if room1.isEmpty then ddel reg1 1 else reg1, [])
    else (reg, [])

/-- The `for uid, connection in self.active_connections[chat_id].items()`
loop of `App`'s `broadcast`; on a send failure it calls
`self.disconnect(uid)` (which always touches room 1) and continues, so the
same CPython `RuntimeError`-on-mutated-dict semantics applies. -/
def bcLoop (fails : Nat → Bool) (msg : Msg) (excl : Option Nat) :
    List (Nat × WS) → Registry → List Eff → Bool → BCResult
  | [], reg, effs, modified => ⟨reg, effs, modified⟩
  | (user, ws) :: rest, reg, effs, modified =>
    if modified then ⟨reg, effs, true⟩
    else if some user = excl then
      bcLoop fails msg excl rest reg effs false
    else if fails ws.sid then
      bcLoop fails msg excl rest (disconnect reg user).1
        (effs ++ [Eff.sendFailed ws msg]) true
    else
      bcLoop fails msg excl rest reg (effs ++ [Eff.sent ws msg]) false

/-- `ConnectionManager.broadcast(chat_id, message, exclude_user)` of
`src/app.py`. -/
def broadcast (fails : Nat → Bool) (reg : Registry) (chat : Nat) (msg : Msg)
    (excl : Option Nat) : BCResult :=
  match dlookup reg chat with
  | none => ⟨reg, [], false⟩
  | some room => bcLoop fails msg excl room reg [] false

/-- `ConnectionManager.connect(websocket, user_id)` of `src/app.py`: accept
the socket, create room 1 if missing, close any previous socket of the user
(`await ...close()` inside `try/except: pass`, modelled as a `closed`
effect), assign the new socket, then broadcast `user_online` with
`online_count` taken after the assignment, excluding the connecting user.
The room id is hard-coded to 1. -/
def connect (fails : Nat → Bool) (reg : Registry) (user : Nat) (ws : WS) :
    ConnResult :=
  let reg1 := if dmem reg 1 then reg else dset reg 1 []
  let room1 := roomOf reg1 1
  let closeEffs : List Eff :=
    match dlookup room1 user with
    | some old => [Eff.closed old]
    | none => []
  let room2 := dset room1 user ws
  let reg2 := dset reg1 1 room2
  let msg := Msg.userOnline user room2.length
  let b := broadcast fails reg2 1 msg (some user)
  ⟨b.reg, Eff.accepted ws :: closeEffs ++ b.effs, b.raised, msg⟩

end App

section DictLemmas

variable {α : Type}

theorem dlookup_dset_self (l : List (Nat × α)) (k : Nat) (v : α) :
    dlookup (dset l k v) k = some v := by
  induction l with
  | nil => simp [dset, dlookup]
  | cons p t ih =>
    obtain ⟨k₁, v₁⟩ := p
    by_cases h : k₁ = k
    · subst h; simp [dset, dlookup]
    · simp [dset, dlookup, h, ih]

theorem dlookup_dset_ne (l : List (Nat × α)) (k j : Nat) (v : α) (h : j ≠ k) :
    dlookup (dset l k v) j = dlookup l j := by
  have hkj : ¬ k = j := fun he => h he.symm
  induction l with
  | nil => simp [dset, dlookup, hkj]
  | cons p t ih =>
    obtain ⟨k₁, v₁⟩ := p
    by_cases h₁ : k₁ = k
    · subst h₁; simp [dset, dlookup, hkj]
    · by_cases h₂ : k₁ = j
      · subst h₂; simp [dset, dlookup, h₁]
      · simp [dset, dlookup, h₁, h₂, ih]

theorem dlookup_ddel_ne (l : List (Nat × α)) (k j : Nat) (h : j ≠ k) :
    dlookup (ddel l k) j = dlookup l j := by
  have hkj : ¬ k = j := fun he => h he.symm
  induction l with
  | nil => simp [ddel]
  | cons p t ih =>
    obtain ⟨k₁, v₁⟩ := p
    by_cases h₁ : k₁ = k
    · subst h₁; simp [ddel, dlookup, hkj]
    · by_cases h₂ : k₁ = j
      · subst h₂; simp [ddel, dlookup, h₁]
      · simp [ddel, dlookup, h₁, h₂, ih]

theorem dlookup_eq_none_of_not_mem_keys (l : List (Nat × α)) (k : Nat)
    (h : k ∉ l.map Prod.fst) : dlookup l k = none := by
  induction l with
  | nil => simp [dlookup]
  | cons p t ih =>
    obtain ⟨k₁, v₁⟩ := p
    simp only [List.map_cons, List.mem_cons, not_or] at h
    have hne : ¬ k₁ = k := fun he => h.1 he.symm
    simp [dlookup, hne, ih h.2]

theorem dlookup_isSome_of_mem_keys (l : List (Nat × α)) (k : Nat)
    (h : k ∈ l.map Prod.fst) : (dlookup l k).isSome := by
  induction l with
  | nil => simp at h
  | cons p t ih =>
    obtain ⟨k₁, v₁⟩ := p
    by_cases h₁ : k₁ = k
    · simp [dlookup, h₁]
    · simp only [List.map_cons, List.mem_cons] at h
      rcases h with h2 | h2
      · exact absurd h2.symm h₁
      · simp [dlookup, h₁, ih h2]

theorem mem_of_dlookup (l : List (Nat × α)) (k : Nat) (v : α)
    (h : dlookup l k = some v) : (k, v) ∈ l := by
  induction l with
  | nil => simp [dlookup] at h
  | cons p t ih =>
    obtain ⟨k₁, v₁⟩ := p
    by_cases h₁ : k₁ = k
    · subst h₁
      simp [dlookup] at h
      simp [h]
    · simp only [dlookup, if_neg h₁] at h
      exact List.mem_cons_of_mem _ (ih h)

theorem ddel_of_dlookup_none (l : List (Nat × α)) (k : Nat)
    (h : dlookup l k = none) : ddel l k = l := by
  induction l with
  | nil => simp [ddel]
  | cons p t ih =>
    obtain ⟨k₁, v₁⟩ := p
    by_cases h₁ : k₁ = k
    · simp [dlookup, h₁] at h
    · simp only [dlookup, if_neg h₁] at h
      simp [ddel, h₁, ih h]

theorem dlookup_ddel_self (l : List (Nat × α)) (k : Nat) (h : NodupKeys l) :
    dlookup (ddel l k) k = none := by
  induction l with
  | nil => simp [ddel, dlookup]
  | cons p t ih =>
    obtain ⟨k₁, v₁⟩ := p
    simp only [NodupKeys, List.map_cons, List.nodup_cons] at h
    by_cases h₁ : k₁ = k
    · subst h₁
      simpa [ddel] using dlookup_eq_none_of_not_mem_keys t k₁ h.1
    · simp [ddel, dlookup, h₁, ih h.2]

theorem dset_cons_self (k : Nat) (v₁ v : α) (t : List (Nat × α)) :
    dset ((k, v₁) :: t) k v = (k, v) :: t := by
  simp [dset]

theorem dset_cons_ne (k₁ k : Nat) (v₁ v : α) (t : List (Nat × α))
    (h : k₁ ≠ k) : dset ((k₁, v₁) :: t) k v = (k₁, v₁) :: dset t k v := by
  simp [dset, h]

theorem ddel_cons_self (k : Nat) (v₁ : α) (t : List (Nat × α)) :
    ddel ((k, v₁) :: t) k = t := by
  simp [ddel]

theorem ddel_cons_ne (k₁ k : Nat) (v₁ : α) (t : List (Nat × α))
    (h : k₁ ≠ k) : ddel ((k₁, v₁) :: t) k = (k₁, v₁) :: ddel t k := by
  simp [ddel, h]

theorem dlookup_cons_self (k : Nat) (v₁ : α) (t : List (Nat × α)) :
    dlookup ((k, v₁) :: t) k = some v₁ := by
  simp [dlookup]

theorem dlookup_cons_ne (k₁ k : Nat) (v₁ : α) (t : List (Nat × α))
    (h : k₁ ≠ k) : dlookup ((k₁, v₁) :: t) k = dlookup t k := by
  simp [dlookup, h]

theorem mem_keys_dset (l : List (Nat × α)) (k j : Nat) (v : α) :
    j ∈ (dset l k v).map Prod.fst ↔ j ∈ l.map Prod.fst ∨ j = k := by
  induction l with
  | nil => simp [dset]
  | cons p t ih =>
    obtain ⟨k₁, v₁⟩ := p
    by_cases h₁ : k₁ = k
    · subst h₁
      rw [dset_cons_self]
      simp only [List.map_cons, List.mem_cons]
      tauto
    · rw [dset_cons_ne _ _ _ _ _ h₁]
      simp only [List.map_cons, List.mem_cons, ih]
      tauto

theorem nodupKeys_dset (l : List (Nat × α)) (k : Nat) (v : α)
    (h : NodupKeys l) : NodupKeys (dset l k v) := by
  induction l with
  | nil => simp [dset, NodupKeys]
  | cons p t ih =>
    obtain ⟨k₁, v₁⟩ := p
    simp only [NodupKeys, List.map_cons, List.nodup_cons] at h
    by_cases h₁ : k₁ = k
    · subst h₁
      rw [dset_cons_self]
      simp only [NodupKeys, List.map_cons, List.nodup_cons]
      exact h
    · rw [dset_cons_ne _ _ _ _ _ h₁]
      simp only [NodupKeys, List.map_cons, List.nodup_cons]
      refine ⟨?_, ih h.2⟩
      intro hmem
      rcases (mem_keys_dset t k k₁ v).mp hmem with hmem₁ | heq
      · exact h.1 hmem₁
      · exact h₁ heq

theorem mem_keys_ddel_sub (l : List (Nat × α)) (k j : Nat)
    (h : j ∈ (ddel l k).map Prod.fst) : j ∈ l.map Prod.fst := by
  induction l with
  | nil => simpa [ddel] using h
  | cons p t ih =>
    obtain ⟨k₁, v₁⟩ := p
    by_cases h₁ : k₁ = k
    · subst h₁
      simp only [ddel, if_pos rfl] at h
      simp only [List.map_cons, List.mem_cons]
      exact Or.inr h
    · simp only [ddel, if_neg h₁, List.map_cons, List.mem_cons] at h ⊢
      tauto

theorem nodupKeys_ddel (l : List (Nat × α)) (k : Nat) (h : NodupKeys l) :
    NodupKeys (ddel l k) := by
  induction l with
  | nil => simpa [ddel] using h
  | cons p t ih =>
    obtain ⟨k₁, v₁⟩ := p
    simp only [NodupKeys, List.map_cons, List.nodup_cons] at h
    by_cases h₁ : k₁ = k
    · subst h₁
      simp only [ddel, if_pos rfl]
      exact h.2
    · simp only [NodupKeys, ddel, if_neg h₁, List.map_cons, List.nodup_cons]
      exact ⟨fun hmem => h.1 (mem_keys_ddel_sub t k k₁ hmem), ih h.2⟩

theorem mem_dset_sub (l : List (Nat × α)) (k : Nat) (v : α) (q : Nat × α)
    (h : q ∈ dset l k v) : q ∈ l ∨ q = (k, v) := by
  induction l with
  | nil =>
    simp only [dset, List.mem_singleton] at h
    exact Or.inr h
  | cons p t ih =>
    obtain ⟨k₁, v₁⟩ := p
    by_cases h₁ : k₁ = k
    · subst h₁
      rw [dset_cons_self] at h
      rcases List.mem_cons.mp h with h₂ | h₂
      · exact Or.inr h₂
      · exact Or.inl (List.mem_cons_of_mem _ h₂)
    · rw [dset_cons_ne _ _ _ _ _ h₁] at h
      rcases List.mem_cons.mp h with h₂ | h₂
      · exact Or.inl (by rw [h₂]; exact List.mem_cons_self _ _)
      · rcases ih h₂ with h₃ | h₃
        · exact Or.inl (List.mem_cons_of_mem _ h₃)
        · exact Or.inr h₃

theorem mem_ddel_sub (l : List (Nat × α)) (k : Nat) (q : Nat × α)
    (h : q ∈ ddel l k) : q ∈ l := by
  induction l with
  | nil => simpa [ddel] using h
  | cons p t ih =>
    obtain ⟨k₁, v₁⟩ := p
    by_cases h₁ : k₁ = k
    · subst h₁
      simp only [ddel, if_pos rfl] at h
      exact List.mem_cons_of_mem _ h
    · simp only [ddel, if_neg h₁, List.mem_cons] at h ⊢
      tauto

theorem mem_dset_of_dlookup_ne (l : List (Nat × α)) (k j : Nat) (v w : α)
    (h : dlookup l j = some w) (hne : j ≠ k) : (j, w) ∈ dset l k v := by
  induction l with
  | nil => simp [dlookup] at h
  | cons p t ih =>
    obtain ⟨k₁, v₁⟩ := p
    by_cases h₁ : k₁ = k
    · subst h₁
      have h₂ : k₁ ≠ j := fun he => hne he.symm
      rw [dlookup_cons_ne _ _ _ _ h₂] at h
      rw [dset_cons_self]
      exact List.mem_cons_of_mem _ (mem_of_dlookup t j w h)
    · by_cases h₂ : k₁ = j
      · subst h₂
        rw [dlookup_cons_self] at h
        obtain rfl : v₁ = w := Option.some.inj h
        rw [dset_cons_ne _ _ _ _ _ h₁]
        exact List.mem_cons_self _ _
      · rw [dlookup_cons_ne _ _ _ _ h₂] at h
        rw [dset_cons_ne _ _ _ _ _ h₁]
        exact List.mem_cons_of_mem _ (ih h)

theorem mem_ddel_of_dlookup_ne (l : List (Nat × α)) (k j : Nat) (w : α)
    (h : dlookup l j = some w) (hne : j ≠ k) : (j, w) ∈ ddel l k := by
  induction l with
  | nil => simp [dlookup] at h
  | cons p t ih =>
    obtain ⟨k₁, v₁⟩ := p
    by_cases h₁ : k₁ = k
    · subst h₁
      have h₂ : k₁ ≠ j := fun he => hne he.symm
      rw [dlookup_cons_ne _ _ _ _ h₂] at h
      rw [ddel_cons_self]
      exact mem_of_dlookup t j w h
    · by_cases h₂ : k₁ = j
      · subst h₂
        rw [dlookup_cons_self] at h
        obtain rfl : v₁ = w := Option.some.inj h
        rw [ddel_cons_ne _ _ _ _ h₁]
        exact List.mem_cons_self _ _
      · rw [dlookup_cons_ne _ _ _ _ h₂] at h
        rw [ddel_cons_ne _ _ _ _ h₁]
        exact List.mem_cons_of_mem _ (ih h)

theorem countKey_cons (k₁ : Nat) (v₁ : α) (t : List (Nat × α)) (k : Nat) :
    countKey ((k₁, v₁) :: t) k = countKey t k + (if k₁ = k then 1 else 0) := by
  simp only [countKey, List.countP_cons, beq_iff_eq]

theorem countKey_eq_zero_of_not_mem_keys (l : List (Nat × α)) (k : Nat)
    (h : k ∉ l.map Prod.fst) : countKey l k = 0 := by
  induction l with
  | nil => simp [countKey]
  | cons p t ih =>
    obtain ⟨k₁, v₁⟩ := p
    simp only [List.map_cons, List.mem_cons, not_or] at h
    have hne : ¬ k₁ = k := fun he => h.1 he.symm
    rw [countKey_cons, if_neg hne, ih h.2]

theorem countKey_le_one (l : List (Nat × α)) (k : Nat) (h : NodupKeys l) :
    countKey l k ≤ 1 := by
  induction l with
  | nil => simp [countKey]
  | cons p t ih =>
    obtain ⟨k₁, v₁⟩ := p
    simp only [NodupKeys, List.map_cons, List.nodup_cons] at h
    rw [countKey_cons]
    by_cases h₁ : k₁ = k
    · subst h₁
      rw [if_pos rfl, countKey_eq_zero_of_not_mem_keys t k₁ h.1]
    · rw [if_neg h₁]
      have := ih h.2
      omega

theorem countKey_dset_self (l : List (Nat × α)) (k : Nat) (v : α)
    (h : NodupKeys l) : countKey (dset l k v) k = 1 := by
  induction l with
  | nil => simp [dset, countKey, List.countP_cons]
  | cons p t ih =>
    obtain ⟨k₁, v₁⟩ := p
    simp only [NodupKeys, List.map_cons, List.nodup_cons] at h
    by_cases h₁ : k₁ = k
    · subst h₁
      rw [dset_cons_self, countKey_cons, if_pos rfl,
        countKey_eq_zero_of_not_mem_keys t k₁ h.1]
    · rw [dset_cons_ne _ _ _ _ _ h₁, countKey_cons, if_neg h₁, ih h.2]

theorem countKey_ddel_ne (l : List (Nat × α)) (k j : Nat) (h : j ≠ k) :
    countKey (ddel l k) j = countKey l j := by
  induction l with
  | nil => simp [ddel]
  | cons p t ih =>
    obtain ⟨k₁, v₁⟩ := p
    by_cases h₁ : k₁ = k
    · subst h₁
      have hne : ¬ k₁ = j := fun he => h he.symm
      rw [ddel_cons_self, countKey_cons, if_neg hne]
      omega
    · rw [ddel_cons_ne _ _ _ _ h₁, countKey_cons, countKey_cons, ih]

theorem mem_dset_nodup (l : List (Nat × α)) (k j : Nat) (v w : α)
    (hnd : NodupKeys l) (h : (j, w) ∈ dset l k v) :
    (j ≠ k ∧ (j, w) ∈ l) ∨ (j = k ∧ w = v) := by
  induction l with
  | nil =>
    simp only [dset, List.mem_singleton, Prod.mk.injEq] at h
    exact Or.inr h
  | cons p t ih =>
    obtain ⟨k₁, v₁⟩ := p
    simp only [NodupKeys, List.map_cons, List.nodup_cons] at hnd
    by_cases h₁ : k₁ = k
    · subst h₁
      rw [dset_cons_self] at h
      rcases List.mem_cons.mp h with h₂ | h₂
      · obtain ⟨he₁, he₂⟩ := Prod.mk.injEq .. ▸ h₂
        exact Or.inr ⟨he₁, he₂⟩
      · have hj : j ∈ t.map Prod.fst := List.mem_map.mpr ⟨(j, w), h₂, rfl⟩
        have hne : j ≠ k₁ := fun he => hnd.1 (he ▸ hj)
        exact Or.inl ⟨hne, List.mem_cons_of_mem _ h₂⟩
    · rw [dset_cons_ne _ _ _ _ _ h₁] at h
      rcases List.mem_cons.mp h with h₂ | h₂
      · obtain ⟨he₁, he₂⟩ := Prod.mk.injEq .. ▸ h₂
        subst he₁; subst he₂
        exact Or.inl ⟨by omega, List.mem_cons_self _ _⟩
      · rcases ih hnd.2 h₂ with ⟨hne, hmem⟩ | heq
        · exact Or.inl ⟨hne, List.mem_cons_of_mem _ hmem⟩
        · exact Or.inr heq

theorem nodup_mem_ddel_ne (l : List (Nat × α)) (k j : Nat) (w : α)
    (hnd : NodupKeys l) (h : (j, w) ∈ ddel l k) : j ≠ k := by
  intro he
  subst he
  have h₁ : dlookup (ddel l j) j = none := dlookup_ddel_self l j hnd
  have h₂ : (dlookup (ddel l j) j).isSome :=
    dlookup_isSome_of_mem_keys _ j (List.mem_map.mpr ⟨(j, w), h, rfl⟩)
  rw [h₁] at h₂
  simp at h₂

end DictLemmas

section RegistryLemmas

theorem roomOf_dset_self (reg : Registry) (c : Nat) (r : Room) :
    roomOf (dset reg c r) c = r := by
  simp [roomOf, dlookup_dset_self]

theorem roomOf_dset_ne (reg : Registry) (c c' : Nat) (r : Room) (h : c' ≠ c) :
    roomOf (dset reg c r) c' = roomOf reg c' := by
  simp [roomOf, dlookup_dset_ne _ _ _ _ h]

theorem nodupKeys_roomOf (reg : Registry) (c : Nat) (hWF : WF reg) :
    NodupKeys (roomOf reg c) := by
  unfold roomOf
  cases hl : dlookup reg c with
  | none => simp [NodupKeys]
  | some room =>
    exact hWF.2 (c, room) (mem_of_dlookup reg c room hl)

theorem WF_dset_room (reg : Registry) (c : Nat) (r : Room) (hWF : WF reg)
    (hr : NodupKeys r) : WF (dset reg c r) := by
  refine ⟨nodupKeys_dset reg c r hWF.1, ?_⟩
  intro p hp
  rcases mem_dset_sub reg c r p hp with h | h
  · exact hWF.2 p h
  · rw [h]
    exact hr

theorem WF_ddel_reg (reg : Registry) (c : Nat) (hWF : WF reg) :
    WF (ddel reg c) := by
  exact ⟨nodupKeys_ddel reg c hWF.1, fun p hp => hWF.2 p (mem_ddel_sub reg c p hp)⟩

end RegistryLemmas

namespace Backend

theorem disconnect_reg_of_none (reg : Registry) (c u : Nat)
    (h : dlookup reg c = none) : (disconnect reg c u).reg = reg := by
  simp [disconnect, h]

theorem disconnect_reg_of_not_mem (reg : Registry) (c u : Nat)
    (h : dmem (roomOf reg c) u = false) : (disconnect reg c u).reg = reg := by
  unfold disconnect
  cases hl : dlookup reg c with
  | none => rfl
  | some room =>
    have : dmem room u = false := by
      simpa [roomOf, hl] using h
    simp [this]

theorem roomOf_disconnect_self (reg : Registry) (c u : Nat)
    (hnd : NodupKeys reg) :
    roomOf (disconnect reg c u).reg c = ddel (roomOf reg c) u := by
  unfold disconnect
  cases hl : dlookup reg c with
  | none => simp [roomOf, hl, ddel]
  | some room =>
    simp only [roomOf, hl, Option.getD_some]
    cases hm : dmem room u with
    | false =>
      have hnone : dlookup room u = none := by
        cases ho : dlookup room u with
        | none => rfl
        | some v => simp [dmem, ho] at hm
      simp [hm, roomOf, hl, ddel_of_dlookup_none room u hnone]
    | true =>
      simp only [hm, if_true]
      by_cases he : (ddel room u).isEmpty
      · have hemp : ddel room u = [] := by
          simpa [List.isEmpty_iff] using he
        have hnone : dlookup (ddel (dset reg c (ddel room u)) c) c = none :=
          dlookup_ddel_self _ c (nodupKeys_dset reg c _ hnd)
        rw [hemp] at hnone
        simp [he, roomOf, hnone, hemp]
      · simp [he, roomOf, dlookup_dset_self]

theorem roomOf_disconnect_ne (reg : Registry) (c u c' : Nat) (h : c' ≠ c) :
    roomOf (disconnect reg c u).reg c' = roomOf reg c' := by
  unfold disconnect
  cases hl : dlookup reg c with
  | none => rfl
  | some room =>
    cases hm : dmem room u with
    | false => simp [hm]
    | true =>
      simp only [hm, if_true]
      by_cases he : (ddel room u).isEmpty
      · simp [he, roomOf, dlookup_ddel_ne _ _ _ h, dlookup_dset_ne _ _ _ _ h]
      · simp [he, roomOf, dlookup_dset_ne _ _ _ _ h]

theorem WF_disconnect (reg : Registry) (c u : Nat) (hWF : WF reg) :
    WF (disconnect reg c u).reg := by
  unfold disconnect
  cases hl : dlookup reg c with
  | none => exact hWF
  | some room =>
    have hroom : NodupKeys room := hWF.2 (c, room) (mem_of_dlookup reg c room hl)
    cases hm : dmem room u with
    | false => simp only [hm]; exact hWF
    | true =>
      simp only [hm, if_true]
      have h₁ : WF (dset reg c (ddel room u)) :=
        WF_dset_room reg c _ hWF (nodupKeys_ddel room u hroom)
      by_cases he : (ddel room u).isEmpty
      · simp only [he, if_true]
        exact WF_ddel_reg _ c h₁
      · simp only [he, if_false]
        exact h₁

theorem nodupKeys_disconnect (reg : Registry) (c u : Nat)
    (hnd : NodupKeys reg) : NodupKeys (disconnect reg c u).reg := by
  unfold disconnect
  cases hl : dlookup reg c with
  | none => exact hnd
  | some room =>
    cases hm : dmem room u with
    | false => simp only [hm]; exact hnd
    | true =>
      simp only [hm, if_true]
      by_cases he : (ddel room u).isEmpty
      · simp only [he, if_true]
        exact nodupKeys_ddel _ c (nodupKeys_dset reg c _ hnd)
      · simp only [he, if_false]
        exact nodupKeys_dset reg c _ hnd

theorem bcLoop_reg_pres (fails : Nat → Bool) (chat : Nat) (msg : Msg)
    (excl : Option Nat) (P : Registry → Prop)
    (hdisc : ∀ r u, some u ≠ excl → P r → P (disconnect r chat u).reg) :
    ∀ entries reg effs sched modified, P reg →
      P (bcLoop fails chat msg excl entries reg effs sched modified).reg := by
  intro entries
  induction entries with
  | nil =>
    intro reg effs sched modified h0
    simpa [bcLoop] using h0
  | cons p rest ih =>
    intro reg effs sched modified h0
    obtain ⟨u, ws⟩ := p
    by_cases hmod : modified
    · subst hmod
      simpa [bcLoop] using h0
    · have hmod' : modified = false := by
        cases modified
        · rfl
        · exact absurd rfl hmod
      subst hmod'
      by_cases hexcl : some u = excl
      · simp only [bcLoop, if_false, hexcl, if_true]
        exact ih _ _ _ _ h0
      · by_cases hf : fails ws.sid
        · simp only [bcLoop, if_false, hexcl, if_true, hf]
          exact ih _ _ _ _ (hdisc reg u hexcl h0)
        · simp only [bcLoop, if_false, hexcl, hf, if_true]
          exact ih _ _ _ _ h0

theorem broadcast_reg_pres (fails : Nat → Bool) (reg : Registry) (chat : Nat)
    (msg : Msg) (excl : Option Nat) (P : Registry → Prop)
    (hdisc : ∀ r u, some u ≠ excl → P r → P (disconnect r chat u).reg)
    (h0 : P reg) : P (broadcast_to_chat fails reg chat msg excl).reg := by
  unfold broadcast_to_chat
  cases hl : dlookup reg chat with
  | none => exact h0
  | some room =>
    exact bcLoop_reg_pres fails chat msg excl P hdisc room reg [] [] false h0

theorem WF_broadcast (fails : Nat → Bool) (reg : Registry) (chat : Nat)
    (msg : Msg) (excl : Option Nat) (hWF : WF reg) :
    WF (broadcast_to_chat fails reg chat msg excl).reg :=
  broadcast_reg_pres fails reg chat msg excl WF
    (fun r u _ h => WF_disconnect r chat u h) hWF

theorem dlookup_ensure_self (reg : Registry) (chat : Nat) :
    roomOf (if dmem reg chat then reg else dset reg chat []) chat
      = roomOf reg chat := by
  cases h : dmem reg chat with
  | true => simp [h]
  | false =>
    have hl : dlookup reg chat = none := by
      cases ho : dlookup reg chat with
      | none => rfl
      | some v => simp [dmem, ho] at h
    simp [h, roomOf, hl, dlookup_dset_self]

theorem WF_ensure (reg : Registry) (chat : Nat) (hWF : WF reg) :
    WF (if dmem reg chat then reg else dset reg chat []) := by
  cases h : dmem reg chat with
  | true => simpa [h] using hWF
  | false =>
    simp only [h, Bool.false_eq_true, if_false]
    exact WF_dset_room reg chat [] hWF (by simp [NodupKeys])

theorem connect_reg_eq (fails : Nat → Bool) (reg : Registry) (chat u : Nat)
    (w : WS) :
    (connect fails reg chat u w).reg =
      (broadcast_to_chat fails (connectPre reg chat u w) chat
        (Msg.userConnected u
          (dset (roomOf (if dmem reg chat then reg else dset reg chat []) chat)
            u w).length)
        (some u)).reg := rfl

theorem connect_effs_eq (fails : Nat → Bool) (reg : Registry) (chat u : Nat)
    (w : WS) :
    (connect fails reg chat u w).effs =
      Eff.accepted w ::
        (broadcast_to_chat fails (connectPre reg chat u w) chat
          (Msg.userConnected u
            (dset (roomOf (if dmem reg chat then reg else dset reg chat []) chat)
              u w).length)
          (some u)).effs := rfl

theorem connect_announce (fails : Nat → Bool) (reg : Registry) (chat u : Nat)
    (w : WS) :
    (connect fails reg chat u w).announce =
      Msg.userConnected u (dset (roomOf reg chat) u w).length := by
  simp only [connect, dlookup_ensure_self]

theorem roomOf_connectPre (reg : Registry) (chat u : Nat) (w : WS) :
    roomOf (connectPre reg chat u w) chat = dset (roomOf reg chat) u w := by
  simp only [connectPre]
  rw [roomOf_dset_self, dlookup_ensure_self]

theorem WF_connectPre (reg : Registry) (chat u : Nat) (w : WS) (hWF : WF reg) :
    WF (connectPre reg chat u w) := by
  simp only [connectPre]
  exact WF_dset_room _ chat _ (WF_ensure reg chat hWF)
    (nodupKeys_dset _ u w (nodupKeys_roomOf _ chat (WF_ensure reg chat hWF)))

theorem connect_slot (fails : Nat → Bool) (reg : Registry) (chat u : Nat)
    (w : WS) (hWF : WF reg) :
    (dlookup (roomOf (connect fails reg chat u w).reg chat) u = some w ∧
      countKey (roomOf (connect fails reg chat u w).reg chat) u = 1) ∧
    WF (connect fails reg chat u w).reg := by
  rw [connect_reg_eq]
  refine broadcast_reg_pres _ _ _ _ _
    (fun r => (dlookup (roomOf r chat) u = some w ∧
      countKey (roomOf r chat) u = 1) ∧ WF r) ?_ ?_
  · rintro r u' hne ⟨⟨hlk, hck⟩, hWFr⟩
    have hne' : u ≠ u' := fun he => hne (congrArg some he.symm)
    refine ⟨⟨?_, ?_⟩, WF_disconnect r chat u' hWFr⟩
    · rw [roomOf_disconnect_self r chat u' hWFr.1,
        dlookup_ddel_ne _ _ _ hne', hlk]
    · rw [roomOf_disconnect_self r chat u' hWFr.1,
        countKey_ddel_ne _ _ _ hne', hck]
  · refine ⟨⟨?_, ?_⟩, WF_connectPre reg chat u w hWF⟩
    · rw [roomOf_connectPre, dlookup_dset_self]
    · rw [roomOf_connectPre]
      exact countKey_dset_self _ u w (nodupKeys_roomOf reg chat hWF)

theorem WF_connect (fails : Nat → Bool) (reg : Registry) (chat u : Nat)
    (w : WS) (hWF : WF reg) : WF (connect fails reg chat u w).reg :=
  (connect_slot fails reg chat u w hWF).2

theorem WF_runOp (reg : Registry) (op : Op) (hWF : WF reg) :
    WF (runOp reg op) := by
  cases op with
  | connect chat user ws fails => exact WF_connect fails reg chat user ws hWF
  | disconnect chat user => exact WF_disconnect reg chat user hWF
  | broadcast chat msg excl fails => exact WF_broadcast fails reg chat msg excl hWF

theorem WF_run (ops : List Op) : ∀ reg : Registry, WF reg → WF (run reg ops) := by
  induction ops with
  | nil => intro reg h; exact h
  | cons op t ih => intro reg h; exact ih _ (WF_runOp reg op h)

theorem WF_empty : WF ([] : Registry) :=
  ⟨by simp [NodupKeys], by simp⟩

theorem bcLoop_effs_sub (fails : Nat → Bool) (chat : Nat) (msg : Msg)
    (excl : Option Nat) :
    ∀ entries reg effs sched modified,
      ∀ e ∈ (bcLoop fails chat msg excl entries reg effs sched modified).effs,
        e ∈ effs ∨ ∃ p ∈ entries,
          e = Eff.sent p.2 msg ∨ e = Eff.sendFailed p.2 msg := by
  intro entries
  induction entries with
  | nil =>
    intro reg effs sched modified e he
    simp only [bcLoop] at he
    exact Or.inl he
  | cons p rest ih =>
    intro reg effs sched modified e he
    obtain ⟨u, ws⟩ := p
    by_cases hmod : modified
    · subst hmod
      simp only [bcLoop, if_true] at he
      exact Or.inl he
    · have hmod' : modified = false := by
        cases modified
        · rfl
        · exact absurd rfl hmod
      subst hmod'
      by_cases hexcl : some u = excl
      · simp only [bcLoop, Bool.false_eq_true, if_false, hexcl, if_true] at he
        rcases ih _ _ _ _ e he with h | ⟨q, hq, hq2⟩
        · exact Or.inl h
        · exact Or.inr ⟨q, List.mem_cons_of_mem _ hq, hq2⟩
      · by_cases hf : fails ws.sid
        · simp only [bcLoop, Bool.false_eq_true, if_false, hexcl, hf,
            if_true] at he
          rcases ih _ _ _ _ e he with h | ⟨q, hq, hq2⟩
          · rcases List.mem_append.mp h with h₁ | h₁
            · exact Or.inl h₁
            · rcases List.mem_singleton.mp h₁ with rfl
              exact Or.inr ⟨(u, ws), List.mem_cons_self _ _, Or.inr rfl⟩
          · exact Or.inr ⟨q, List.mem_cons_of_mem _ hq, hq2⟩
        · simp only [bcLoop, Bool.false_eq_true, if_false, hexcl, hf,
            if_true] at he
          rcases ih _ _ _ _ e he with h | ⟨q, hq, hq2⟩
          · rcases List.mem_append.mp h with h₁ | h₁
            · exact Or.inl h₁
            · rcases List.mem_singleton.mp h₁ with rfl
              exact Or.inr ⟨(u, ws), List.mem_cons_self _ _, Or.inl rfl⟩
          · exact Or.inr ⟨q, List.mem_cons_of_mem _ hq, hq2⟩

theorem bcLoop_noFail (chat : Nat) (msg : Msg) (excl : Option Nat) :
    ∀ entries reg effs sched,
      bcLoop (fun _ => false) chat msg excl entries reg effs sched false =
        ⟨reg,
          effs ++ entries.filterMap (fun p =>
            if some p.1 = excl then none else some (Eff.sent p.2 msg)),
          sched, false⟩ := by
  intro entries
  induction entries with
  | nil => intro reg effs sched; simp [bcLoop]
  | cons p rest ih =>
    intro reg effs sched
    obtain ⟨u, ws⟩ := p
    by_cases hexcl : some u = excl
    · simp [bcLoop, hexcl, ih]
    · simp [bcLoop, hexcl, ih, List.append_assoc]

theorem broadcast_noFail_delivers (reg : Registry) (chat : Nat) (msg : Msg)
    (excl : Option Nat) (room : Room) (hl : dlookup reg chat = some room)
    (u' : Nat) (w' : WS) (hmem : (u', w') ∈ room) (hne : some u' ≠ excl) :
    Eff.sent w' msg ∈
      (broadcast_to_chat (fun _ => false) reg chat msg excl).effs := by
  simp only [broadcast_to_chat, hl]
  rw [bcLoop_noFail]
  simp only [List.nil_append]
  exact List.mem_filterMap.mpr ⟨(u', w'), hmem, by rw [if_neg hne]⟩

theorem broadcast_noFail_raised (reg : Registry) (chat : Nat) (msg : Msg)
    (excl : Option Nat) :
    (broadcast_to_chat (fun _ => false) reg chat msg excl).raised = false := by
  cases hl : dlookup reg chat with
  | none => simp [broadcast_to_chat, hl]
  | some room =>
    simp only [broadcast_to_chat, hl]
    rw [bcLoop_noFail]

theorem dlookup_of_mem_nodup {α : Type} (l : List (Nat × α)) (k : Nat) (v : α)
    (hnd : NodupKeys l) (h : (k, v) ∈ l) : dlookup l k = some v := by
  induction l with
  | nil => simp at h
  | cons p t ih =>
    obtain ⟨k₁, v₁⟩ := p
    simp only [NodupKeys, List.map_cons, List.nodup_cons] at hnd
    rcases List.mem_cons.mp h with he | hmem
    · obtain ⟨h₁, h₂⟩ := Prod.mk.injEq .. ▸ he
      subst h₁; subst h₂
      exact dlookup_cons_self k v t
    · by_cases hk : k₁ = k
      · subst hk
        exact absurd (List.mem_map.mpr ⟨(k₁, v), hmem, rfl⟩) hnd.1
      · rw [dlookup_cons_ne _ _ _ _ hk]
        exact ih hnd.2 hmem

theorem storedB_iff (reg : Registry) (s : WS) :
    storedB reg s = true ↔ ∃ p ∈ reg, ∃ q ∈ p.2, q.2 = s := by
  simp [storedB, List.any_eq_true, beq_iff_eq]

theorem storedB_of_mem_roomOf (reg : Registry) (chat : Nat) (q : Nat × WS)
    (h : q ∈ roomOf reg chat) : storedB reg q.2 = true := by
  unfold roomOf at h
  cases hl : dlookup reg chat with
  | none => rw [hl] at h; simp at h
  | some room =>
    rw [hl] at h
    simp only [Option.getD_some] at h
    exact (storedB_iff reg q.2).mpr
      ⟨(chat, room), mem_of_dlookup reg chat room hl, q, h, rfl⟩

theorem broadcast_sent_stored (fails : Nat → Bool) (reg : Registry)
    (chat : Nat) (msg : Msg) (excl : Option Nat) (s : WS) (m' : Msg)
    (h : Eff.sent s m' ∈ (broadcast_to_chat fails reg chat msg excl).effs) :
    storedB reg s = true := by
  revert h
  unfold broadcast_to_chat
  cases hl : dlookup reg chat with
  | none => intro h; simp at h
  | some room =>
    intro h
    rcases bcLoop_effs_sub fails chat msg excl room reg [] [] false _ h with
      h₁ | ⟨q, hq, hq2⟩
    · simp at h₁
    · have hqs : q.2 = s := by
        rcases hq2 with h₂ | h₂ <;> cases h₂ <;> rfl
      exact (storedB_iff reg s).mpr
        ⟨(chat, room), mem_of_dlookup reg chat room hl, q, hq, hqs⟩

theorem disconnect_reg_cases (reg : Registry) (c u : Nat) :
    (disconnect reg c u).reg = reg ∨
      ∃ room, dlookup reg c = some room ∧
        ((disconnect reg c u).reg = dset reg c (ddel room u) ∨
          (disconnect reg c u).reg = ddel (dset reg c (ddel room u)) c) := by
  unfold disconnect
  cases hl : dlookup reg c with
  | none => exact Or.inl rfl
  | some room =>
    cases hm : dmem room u with
    | false =>
      refine Or.inl ?_
      simp [hm]
    | true =>
      by_cases he : (ddel room u).isEmpty
      · refine Or.inr ⟨room, rfl, Or.inr ?_⟩
        simp [hm, he]
      · refine Or.inr ⟨room, rfl, Or.inl ?_⟩
        simp [hm, he]

theorem mem_disconnect_nodup (reg : Registry) (c u : Nat)
    (hnd : NodupKeys reg) (pc : Nat) (pr : Room)
    (hp : (pc, pr) ∈ (disconnect reg c u).reg) :
    (pc, pr) ∈ reg ∨
      (pc = c ∧ ∃ room, dlookup reg c = some room ∧ pr = ddel room u) := by
  rcases disconnect_reg_cases reg c u with he | ⟨room, hl, he | he⟩
  · rw [he] at hp
    exact Or.inl hp
  · rw [he] at hp
    rcases mem_dset_nodup reg c pc (ddel room u) pr hnd hp with
      ⟨hne, hmem⟩ | ⟨heq, heq2⟩
    · exact Or.inl hmem
    · exact Or.inr ⟨heq, room, hl, heq2⟩
  · rw [he] at hp
    have hp' := mem_ddel_sub _ c _ hp
    rcases mem_dset_nodup reg c pc (ddel room u) pr hnd hp' with
      ⟨hne, hmem⟩ | ⟨heq, heq2⟩
    · exact Or.inl hmem
    · exact Or.inr ⟨heq, room, hl, heq2⟩

theorem storedB_disconnect_mono (reg : Registry) (c u : Nat) (s : WS)
    (hnd : NodupKeys reg)
    (h : storedB (disconnect reg c u).reg s = true) : storedB reg s = true := by
  obtain ⟨p, hp, q, hq, hq2⟩ := (storedB_iff _ _).mp h
  obtain ⟨pc, pr⟩ := p
  rcases mem_disconnect_nodup reg c u hnd pc pr hp with hmem | ⟨_, room, hl, hpr⟩
  · exact (storedB_iff reg s).mpr ⟨(pc, pr), hmem, q, hq, hq2⟩
  · subst hpr
    exact (storedB_iff reg s).mpr
      ⟨(c, room), mem_of_dlookup reg c room hl, q, mem_ddel_sub _ u q hq, hq2⟩

theorem storedB_disconnect_pres (reg : Registry) (c u : Nat) (s : WS)
    (hnd : NodupKeys reg) (h : storedB reg s = false) :
    storedB (disconnect reg c u).reg s = false := by
  cases hst : storedB (disconnect reg c u).reg s with
  | false => rfl
  | true => rw [storedB_disconnect_mono reg c u s hnd hst] at h; exact h

theorem storedB_broadcast_pres (fails : Nat → Bool) (reg : Registry)
    (chat : Nat) (msg : Msg) (excl : Option Nat) (s : WS)
    (h : storedB reg s = false ∧ NodupKeys reg) :
    storedB (broadcast_to_chat fails reg chat msg excl).reg s = false ∧
      NodupKeys (broadcast_to_chat fails reg chat msg excl).reg :=
  broadcast_reg_pres fails reg chat msg excl
    (fun r => storedB r s = false ∧ NodupKeys r)
    (fun r u _ hr => ⟨storedB_disconnect_pres r chat u s hr.2 hr.1,
      nodupKeys_disconnect r chat u hr.2⟩) h

theorem storedB_connectPre (reg : Registry) (chat u : Nat) (w : WS) (s : WS)
    (hs : storedB reg s = false) (hw : w ≠ s) :
    storedB (connectPre reg chat u w) s = false := by
  cases hst : storedB (connectPre reg chat u w) s with
  | false => rfl
  | true =>
    exfalso
    obtain ⟨p, hp, q, hq, hq2⟩ := (storedB_iff _ _).mp hst
    simp only [connectPre] at hp
    rcases mem_dset_sub _ chat _ p hp with hp₁ | hp₁
    · have hp₂ : p ∈ reg := by
        cases hd : dmem reg chat with
        | true => simpa [hd] using hp₁
        | false =>
          rw [hd] at hp₁
          simp only [Bool.false_eq_true, if_false] at hp₁
          rcases mem_dset_sub reg chat [] p hp₁ with h₂ | h₂
          · exact h₂
          · rw [h₂] at hq
            simp at hq
      have : storedB reg s = true := (storedB_iff reg s).mpr ⟨p, hp₂, q, hq, hq2⟩
      rw [this] at hs
      exact Bool.noConfusion hs
    · rw [hp₁] at hq
      simp only at hq
      rcases mem_dset_sub _ u w q hq with hq₁ | hq₁
      · rw [dlookup_ensure_self] at hq₁
        have : storedB reg s = true := by
          have := storedB_of_mem_roomOf reg chat q hq₁
          rw [hq2] at this
          exact this
        rw [this] at hs
        exact absurd hs (by simp)
      · rw [hq₁] at hq2
        exact hw hq2

theorem storedB_connect_pres (fails : Nat → Bool) (reg : Registry)
    (chat u : Nat) (w : WS) (s : WS) (hs : storedB reg s = false)
    (hw : w ≠ s) (hnd : NodupKeys reg) :
    storedB (connect fails reg chat u w).reg s = false ∧
      NodupKeys (connect fails reg chat u w).reg := by
  rw [connect_reg_eq]
  refine storedB_broadcast_pres _ _ _ _ _ s
    ⟨storedB_connectPre reg chat u w s hs hw, ?_⟩
  simp only [connectPre]
  apply nodupKeys_dset
  cases hd : dmem reg chat with
  | true => simpa [hd] using hnd
  | false =>
    simp only [hd, Bool.false_eq_true, if_false]
    exact nodupKeys_dset reg chat [] hnd

theorem connect_not_sent (fails : Nat → Bool) (reg : Registry) (chat u : Nat)
    (w : WS) (s : WS) (m' : Msg) (hs : storedB reg s = false) (hw : w ≠ s) :
    Eff.sent s m' ∉ (connect fails reg chat u w).effs := by
  rw [connect_effs_eq]
  intro hmem
  rcases List.mem_cons.mp hmem with he | he
  · exact Eff.noConfusion he
  · have h₁ := broadcast_sent_stored _ _ _ _ _ s m' he
    rw [storedB_connectPre reg chat u w s hs hw] at h₁
    exact Bool.noConfusion h₁

theorem runT_not_sent (ops : List Op) : ∀ reg : Registry, ∀ s : WS, ∀ m' : Msg,
    storedB reg s = false → NodupKeys reg →
    (∀ op ∈ ops, opAdds op s = false) →
    Eff.sent s m' ∉ (runT reg ops).2 ∧ storedB (runT reg ops).1 s = false := by
  induction ops with
  | nil =>
    intro reg s m' hs _ _
    refine ⟨by simp [runT], by simpa [runT] using hs⟩
  | cons op t ih =>
    intro reg s m' hs hnd hops
    have hop := hops op (List.mem_cons_self _ _)
    have hstep : Eff.sent s m' ∉ (stepT reg op).2 ∧
        storedB (stepT reg op).1 s = false ∧ NodupKeys (stepT reg op).1 := by
      cases op with
      | connect chat user ws fails =>
        have hws : ws ≠ s := by
          simp only [opAdds, beq_eq_false_iff_ne, ne_eq] at hop
          exact hop
        have h₂ := storedB_connect_pres fails reg chat user ws s hs hws hnd
        exact ⟨connect_not_sent fails reg chat user ws s m' hs hws, h₂.1, h₂.2⟩
      | disconnect chat user =>
        refine ⟨by simp [stepT], ?_, ?_⟩
        · exact storedB_disconnect_pres reg chat user s hnd hs
        · exact nodupKeys_disconnect reg chat user hnd
      | broadcast chat msg excl fails =>
        have h₂ := storedB_broadcast_pres fails reg chat msg excl s ⟨hs, hnd⟩
        refine ⟨?_, h₂.1, h₂.2⟩
        intro hmem
        have h₃ := broadcast_sent_stored fails reg chat msg excl s m' hmem
        rw [hs] at h₃
        exact Bool.noConfusion h₃
    have ht := ih (stepT reg op).1 s m' hstep.2.1 hstep.2.2
      (fun o ho => hops o (List.mem_cons_of_mem _ ho))
    constructor
    · intro hmem
      simp only [runT] at hmem
      rcases List.mem_append.mp hmem with h₁ | h₁
      · exact hstep.1 h₁
      · exact ht.1 h₁
    · simpa only [runT] using ht.2

theorem disconnect_noop_of_not_mem (reg : Registry) (c u : Nat)
    (h : dmem (roomOf reg c) u = false) :
    disconnect reg c u = ⟨reg, none⟩ := by
  unfold disconnect
  cases hl : dlookup reg c with
  | none => rfl
  | some room =>
    have hm : dmem room u = false := by simpa [roomOf, hl] using h
    simp [hm]

theorem disconnect_scheduled_of_mem (reg : Registry) (c u : Nat) (room : Room)
    (hl : dlookup reg c = some room) (hm : dmem room u = true) :
    (disconnect reg c u).scheduled =
      some (c, Msg.userDisconnected u (ddel room u).length) := by
  unfold disconnect
  rw [hl]
  simp [hm]

theorem disconnect_reg_of_mem_nonempty (reg : Registry) (c u : Nat)
    (room : Room) (hl : dlookup reg c = some room) (hm : dmem room u = true)
    (hne : (ddel room u).isEmpty = false) :
    (disconnect reg c u).reg = dset reg c (ddel room u) := by
  unfold disconnect
  rw [hl]
  simp [hm, hne]

theorem storedB_disconnect_only_slot (reg : Registry) (R U : Nat) (S : WS)
    (hWF : WF reg)
    (honly : ∀ p ∈ reg, ∀ q ∈ p.2, q.2 = S → p.1 = R ∧ q.1 = U) :
    storedB (disconnect reg R U).reg S = false := by
  cases hst : storedB (disconnect reg R U).reg S with
  | false => rfl
  | true =>
    exfalso
    obtain ⟨p, hp, q, hq, hq2⟩ := (storedB_iff _ _).mp hst
    obtain ⟨pc, pr⟩ := p
    cases hl : dlookup reg R with
    | none =>
      rw [disconnect_reg_of_none reg R U hl] at hp
      have h₁ := honly (pc, pr) hp q hq hq2
      have h₂ : dlookup reg R = some pr := by
        rw [← h₁.1]
        exact dlookup_of_mem_nodup reg pc pr hWF.1 hp
      rw [hl] at h₂
      exact Option.noConfusion h₂
    | some room =>
      have hroomnd : NodupKeys room :=
        hWF.2 (R, room) (mem_of_dlookup reg R room hl)
      cases hm : dmem room U with
      | false =>
        have hreg : disconnect reg R U = ⟨reg, none⟩ := by
          apply disconnect_noop_of_not_mem
          simpa [roomOf, hl] using hm
        rw [hreg] at hp
        have h₁ := honly (pc, pr) hp q hq hq2
        have h₂ : dlookup reg R = some pr := by
          rw [← h₁.1]
          exact dlookup_of_mem_nodup reg pc pr hWF.1 hp
        rw [hl] at h₂
        obtain rfl : pr = room := (Option.some.inj h₂).symm
        have h₃ := dlookup_isSome_of_mem_keys pr U
          (List.mem_map.mpr ⟨q, hq, h₁.2⟩)
        have h₄ : dmem pr U = true := by simpa [dmem] using h₃
        rw [h₄] at hm
        exact Bool.noConfusion hm
      | true =>
        have hcases : (disconnect reg R U).reg = dset reg R (ddel room U) ∨
            (disconnect reg R U).reg = ddel (dset reg R (ddel room U)) R := by
          rcases disconnect_reg_cases reg R U with he | ⟨room', hl', he⟩
          · exfalso
            have h₄ : dmem (roomOf reg R) U = true := by
              simpa [roomOf, hl] using hm
            have h₅ : roomOf (disconnect reg R U).reg R = ddel (roomOf reg R) U :=
              roomOf_disconnect_self reg R U hWF.1
            rw [he] at h₅
            have h₆ : dlookup (roomOf reg R) U = none := by
              rw [h₅]
              exact dlookup_ddel_self _ U (nodupKeys_roomOf reg R hWF)
            simp [dmem, h₆] at h₄
          · rw [hl] at hl'
            obtain rfl : room' = room := (Option.some.inj hl').symm
            exact he
        have hp' : (pc, pr) ∈ dset reg R (ddel room U) := by
          rcases hcases with he | he
          · rw [he] at hp; exact hp
          · rw [he] at hp; exact mem_ddel_sub _ R _ hp
        rcases mem_dset_nodup reg R pc (ddel room U) pr hWF.1 hp' with
          ⟨hne, hmem⟩ | ⟨heq, heq2⟩
        · exact hne (honly (pc, pr) hmem q hq hq2).1
        · subst heq2
          have h₁ := honly (R, room) (mem_of_dlookup reg R room hl) q
            (mem_ddel_sub room U _ hq) hq2
          exact nodup_mem_ddel_ne room U q.1 q.2 hroomnd hq h₁.2

end Backend

namespace App

theorem disconnect_reg_eq_backend (reg : Registry) (u : Nat) :
    (disconnect reg u).1 = (Backend.disconnect reg 1 u).reg := by
  unfold disconnect Backend.disconnect
  cases hl : dlookup reg 1 with
  | none => rfl
  | some room =>
    cases hm : dmem room u with
    | false => simp [hm]
    | true =>
      by_cases he : (ddel room u).isEmpty
      · simp [hm, he]
      · simp [hm, he]

theorem disconnect_silent (reg : Registry) (u : Nat) :
    (disconnect reg u).2 = [] := by
  unfold disconnect
  cases hl : dlookup reg 1 with
  | none => rfl
  | some room =>
    cases hm : dmem room u with
    | false => simp [hm]
    | true => simp [hm]

theorem connect_closes (fails : Nat → Bool) (reg : Registry) (u : Nat)
    (w old : WS) (h : dlookup (roomOf reg 1) u = some old) :
    Eff.closed old ∈ (connect fails reg u w).effs := by
  simp only [connect, Backend.dlookup_ensure_self, h]
  simp

theorem connect_online_announce (fails : Nat → Bool) (reg : Registry)
    (u : Nat) (w : WS) :
    (connect fails reg u w).announce =
      Msg.userOnline u (dset (roomOf reg 1) u w).length := by
  simp only [connect, Backend.dlookup_ensure_self]

theorem disconnect_noop (reg : Registry) (u : Nat)
    (h : dmem (roomOf reg 1) u = false) : disconnect reg u = (reg, []) := by
  unfold disconnect
  cases hl : dlookup reg 1 with
  | none => rfl
  | some room =>
    have hm : dmem room u = false := by simpa [roomOf, hl] using h
    simp [hm]

end App

/-- Claim C1: starting from the empty connection registry, after any finite
sequence of operations every (chat, user) pair has at most one stored
session; a further `connect` for a pair leaves exactly one stored entry for
it, holding the new socket — the assignment replaces any previous session
rather than adding a second one alongside. -/
theorem C1_registry_single_occupancy (ops : List Backend.Op) (chat u : Nat)
    (fails : Nat → Bool) (w : WS) :
    countKey (roomOf (Backend.run [] ops) chat) u ≤ 1 ∧
    countKey (roomOf (Backend.connect fails (Backend.run [] ops)
      chat u w).reg chat) u = 1 ∧
    dlookup (roomOf (Backend.connect fails (Backend.run [] ops)
      chat u w).reg chat) u = some w := by
  have hWF := Backend.WF_run ops [] Backend.WF_empty
  exact ⟨countKey_le_one _ u (nodupKeys_roomOf _ chat hWF),
    (Backend.connect_slot fails _ chat u w hWF).1.2,
    (Backend.connect_slot fails _ chat u w hWF).1.1⟩

/-- Claim C2 (code bug): in a room holding sessions 1 and 2 where session 1
fails to send, `broadcast_to_chat` removes the failing session but deletes
it from the dict it is iterating, so CPython raises RuntimeError: session 2
is never attempted and the exception propagates to the caller — the effect
trace is exactly the one failed send, `raised` is true, and only the failing
session was pruned. -/
theorem C2_failed_send_aborts_broadcast :
    (Backend.broadcast_to_chat (fun sid => sid == 1)
        [(1, [(7, ⟨1⟩), (8, ⟨2⟩)])] 1 (Msg.other 0) none).effs
      = [Eff.sendFailed ⟨1⟩ (Msg.other 0)] ∧
    (Backend.broadcast_to_chat (fun sid => sid == 1)
        [(1, [(7, ⟨1⟩), (8, ⟨2⟩)])] 1 (Msg.other 0) none).raised = true ∧
    (Backend.broadcast_to_chat (fun sid => sid == 1)
        [(1, [(7, ⟨1⟩), (8, ⟨2⟩)])] 1 (Msg.other 0) none).reg
      = [(1, [(8, ⟨2⟩)])] := by
  decide

/-- Claim C3 (counterexample): a replacing `connect` in
`src/backend/main.py` never closes the evicted socket: connecting session 2
for user 7 over session 1 produces no `closed` effect for session 1, even
though the slot now holds session 2. -/
theorem C3_counterexample_no_close :
    Eff.closed ⟨1⟩ ∉
      (Backend.connect (fun _ => false) [(1, [(7, ⟨1⟩)])] 1 7 ⟨2⟩).effs ∧
    dlookup (roomOf (Backend.connect (fun _ => false)
        [(1, [(7, ⟨1⟩)])] 1 7 ⟨2⟩).reg 1) 7 = some ⟨2⟩ := by
  decide

/-- Claim C3 (amended): a connect for an occupied (chat, user) slot detaches
the prior session from the registry, leaving exactly one current entry for
the pair — the new socket; in `src/app.py` the prior socket is additionally
closed before the assignment; in neither variant is the evicted session
returned to the caller (`connect` returns None). -/
theorem C3_replacing_connect (reg : Registry) (chat u : Nat) (w old : WS)
    (fails : Nat → Bool) (hWF : WF reg) :
    (countKey (roomOf (Backend.connect fails reg chat u w).reg chat) u = 1 ∧
      dlookup (roomOf (Backend.connect fails reg chat u w).reg chat) u
        = some w) ∧
    (dlookup (roomOf reg 1) u = some old →
      Eff.closed old ∈ (App.connect fails reg u w).effs) :=
  ⟨⟨(Backend.connect_slot fails reg chat u w hWF).1.2,
    (Backend.connect_slot fails reg chat u w hWF).1.1⟩,
    fun h => App.connect_closes fails reg u w old h⟩

/-- Witness for C3 at a concrete occupied slot. -/
theorem C3_replacing_connect_witness :
    WF [(1, [(7, (⟨1⟩ : WS))])] ∧
    ((countKey (roomOf (Backend.connect (fun _ => false)
        [(1, [(7, (⟨1⟩ : WS))])] 1 7 ⟨2⟩).reg 1) 7 = 1 ∧
      dlookup (roomOf (Backend.connect (fun _ => false)
        [(1, [(7, (⟨1⟩ : WS))])] 1 7 ⟨2⟩).reg 1) 7 = some ⟨2⟩) ∧
    (dlookup (roomOf [(1, [(7, (⟨1⟩ : WS))])] 1) 7 = some ⟨1⟩ →
      Eff.closed ⟨1⟩ ∈ (App.connect (fun _ => false)
        [(1, [(7, (⟨1⟩ : WS))])] 7 ⟨2⟩).effs)) :=
  ⟨by decide,
    C3_replacing_connect [(1, [(7, ⟨1⟩)])] 1 7 ⟨2⟩ ⟨1⟩ (fun _ => false)
      (by decide)⟩

/-- Claim C4 (counterexample): with user 7's slot holding session 2, the
spec's Remove called with the stale handle session 1 leaves the registry
unchanged, but the source's `disconnect` — which takes no session argument
at all — deletes the entry and with it the newer session 2. -/
theorem C4_counterexample_stale_remove_deletes :
    Backend.removeSpec [(1, [(7, (⟨2⟩ : WS))])] 1 7 ⟨1⟩
      = [(1, [(7, ⟨2⟩)])] ∧
    (Backend.disconnect [(1, [(7, (⟨2⟩ : WS))])] 1 7).reg = [] := by
  decide

/-- Claim C4 (amended): `disconnect(chat_id, user_id)` carries no session
handle and cannot compare session identities: whenever a (chat, user) entry
exists it is deleted regardless of which session is stored — so a slow
disconnect of an old session does delete a newer replacement — and when no
entry exists the call is a no-op that neither errors nor changes the
registry. -/
theorem C4_disconnect_ignores_session (reg : Registry) (chat u : Nat)
    (hWF : WF reg) :
    dlookup (roomOf (Backend.disconnect reg chat u).reg chat) u = none ∧
    (dlookup (roomOf reg chat) u = none →
      Backend.disconnect reg chat u = ⟨reg, none⟩) := by
  constructor
  · rw [Backend.roomOf_disconnect_self reg chat u hWF.1]
    exact dlookup_ddel_self _ u (nodupKeys_roomOf reg chat hWF)
  · intro h
    exact Backend.disconnect_noop_of_not_mem reg chat u (by simp [dmem, h])

/-- Witness for C4 at a concrete registry. -/
theorem C4_disconnect_ignores_session_witness :
    WF [(1, [(7, (⟨2⟩ : WS))])] ∧
    (dlookup (roomOf (Backend.disconnect
        [(1, [(7, (⟨2⟩ : WS))])] 1 7).reg 1) 7 = none ∧
    (dlookup (roomOf [(1, [(7, (⟨2⟩ : WS))])] 1) 7 = none →
      Backend.disconnect [(1, [(7, (⟨2⟩ : WS))])] 1 7
        = ⟨[(1, [(7, (⟨2⟩ : WS))])], none⟩)) :=
  ⟨by decide, C4_disconnect_ignores_session [(1, [(7, ⟨2⟩)])] 1 7 (by decide)⟩

/-- Claim C5: once `disconnect(R, U)` removes session S — stored only in
slot (R, U), as a real socket object is — S is no longer stored anywhere in
the registry, and after any further operations none of which registers S
again, no broadcast in the whole trace ever delivers an event to S and S is
still absent from the registry.  (The `user_disconnected` broadcasts that
`disconnect` schedules run later as ordinary `Op.broadcast` steps and are
covered by the quantification over `ops`.) -/
theorem C5_removed_session_unreachable (reg : Registry) (R U : Nat) (S : WS)
    (ops : List Backend.Op) (m : Msg) (hWF : WF reg)
    (honly : ∀ p ∈ reg, ∀ q ∈ p.2, q.2 = S → p.1 = R ∧ q.1 = U)
    (hops : ∀ op ∈ ops, Backend.opAdds op S = false) :
    Eff.sent S m ∉ (Backend.runT (Backend.disconnect reg R U).reg ops).2 ∧
    storedB (Backend.runT (Backend.disconnect reg R U).reg ops).1 S
      = false := by
  have h₀ := Backend.storedB_disconnect_only_slot reg R U S hWF honly
  have hnd := Backend.nodupKeys_disconnect reg R U hWF.1
  exact Backend.runT_not_sent ops _ S m h₀ hnd hops

/-- Witness for C5: session 1 of (room 1, user 7) is removed, then a
broadcast, a fresh connect and another disconnect run; session 1 never
receives anything and stays unreachable. -/
theorem C5_removed_session_unreachable_witness :
    WF [(1, [(7, (⟨1⟩ : WS)), (8, ⟨2⟩)])] ∧
    (∀ p ∈ [(1, [(7, (⟨1⟩ : WS)), (8, ⟨2⟩)])], ∀ q ∈ p.2,
      q.2 = (⟨1⟩ : WS) → p.1 = 1 ∧ q.1 = 7) ∧
    (∀ op ∈ [Backend.Op.broadcast 1 (Msg.other 0) none (fun _ => false),
        Backend.Op.connect 1 9 ⟨3⟩ (fun _ => false),
        Backend.Op.disconnect 1 8],
      Backend.opAdds op (⟨1⟩ : WS) = false) ∧
    (Eff.sent (⟨1⟩ : WS) (Msg.other 0) ∉
      (Backend.runT
        (Backend.disconnect [(1, [(7, (⟨1⟩ : WS)), (8, ⟨2⟩)])] 1 7).reg
        [Backend.Op.broadcast 1 (Msg.other 0) none (fun _ => false),
          Backend.Op.connect 1 9 ⟨3⟩ (fun _ => false),
          Backend.Op.disconnect 1 8]).2 ∧
    storedB
      (Backend.runT
        (Backend.disconnect [(1, [(7, (⟨1⟩ : WS)), (8, ⟨2⟩)])] 1 7).reg
        [Backend.Op.broadcast 1 (Msg.other 0) none (fun _ => false),
          Backend.Op.connect 1 9 ⟨3⟩ (fun _ => false),
          Backend.Op.disconnect 1 8]).1 (⟨1⟩ : WS) = false) :=
  ⟨by decide, by decide, by decide,
    C5_removed_session_unreachable [(1, [(7, ⟨1⟩), (8, ⟨2⟩)])] 1 7 ⟨1⟩
      [Backend.Op.broadcast 1 (Msg.other 0) none (fun _ => false),
        Backend.Op.connect 1 9 ⟨3⟩ (fun _ => false),
        Backend.Op.disconnect 1 8]
      (Msg.other 0) (by decide) (by decide) (by decide)⟩

/-- Claim C6 (code bug): broadcasting to the room with user 7 holding
session 1 (whose send fails), user 8 holding session 2 and user 9 holding
session 3, with excludeUser 9: the excluded user's session is — correctly —
never delivered to, but session 2 is never attempted either: the effect
trace stops at session 1's failure and the RuntimeError propagates to the
caller, contradicting "delivery is attempted to the session of every other
user registered in the room". -/
theorem C6_exclusion_holds_but_fanout_aborts :
    (Backend.broadcast_to_chat (fun sid => sid == 1)
        [(1, [(7, ⟨1⟩), (8, ⟨2⟩), (9, ⟨3⟩)])] 1 (Msg.other 0) (some 9)).effs
      = [Eff.sendFailed ⟨1⟩ (Msg.other 0)] ∧
    (Backend.broadcast_to_chat (fun sid => sid == 1)
        [(1, [(7, ⟨1⟩), (8, ⟨2⟩), (9, ⟨3⟩)])] 1 (Msg.other 0)
        (some 9)).raised = true := by
  decide

/-- Claim C7 (counterexample): user 7 is already connected (session 1) in a
room also holding user 8 (session 2); user 7's reconnect — an Add that
evicts session 1 — still broadcasts a join notification, delivered to user
8, contradicting "emitted only for an Add that evicts nothing". -/
theorem C7_counterexample_rejoin_notifies_again :
    Eff.sent ⟨2⟩ (Msg.userConnected 7 2) ∈
      (Backend.connect (fun _ => false)
        [(1, [(7, ⟨1⟩), (8, ⟨2⟩)])] 1 7 ⟨3⟩).effs := by
  decide

/-- Claim C7 (amended): `connect` broadcasts the join notification —
`user_connected` with the acting user id and the post-insert room size,
excluding the joining user — on every call, whether or not the (chat, user)
slot was already occupied; with no send failures it is delivered to every
other member of the room, so members are notified of the join again whenever
an already-connected user reconnects. -/
theorem C7_join_notification_on_every_connect (reg : Registry)
    (chat u u' : Nat) (w w' : WS) (hne : u' ≠ u)
    (hmem : dlookup (roomOf reg chat) u' = some w') :
    (Backend.connect (fun _ => false) reg chat u w).announce
      = Msg.userConnected u (dset (roomOf reg chat) u w).length ∧
    Eff.sent w' (Msg.userConnected u (dset (roomOf reg chat) u w).length) ∈
      (Backend.connect (fun _ => false) reg chat u w).effs := by
  refine ⟨Backend.connect_announce _ reg chat u w, ?_⟩
  rw [Backend.connect_effs_eq, Backend.dlookup_ensure_self]
  refine List.mem_cons_of_mem _ ?_
  refine Backend.broadcast_noFail_delivers _ chat _ (some u)
    (dset (roomOf reg chat) u w) ?_ u' w'
    (mem_dset_of_dlookup_ne _ u u' w w' hmem hne)
    (fun he => hne (Option.some.inj he))
  simp only [Backend.connectPre]
  rw [dlookup_dset_self, Backend.dlookup_ensure_self]

/-- Witness for C7: user 7 reconnects over an existing session while user 8
is present; user 8's session receives the second join notification. -/
theorem C7_join_notification_witness :
    (8 : Nat) ≠ 7 ∧
    dlookup (roomOf [(1, [(7, (⟨1⟩ : WS)), (8, ⟨2⟩)])] 1) 8 = some ⟨2⟩ ∧
    ((Backend.connect (fun _ => false)
        [(1, [(7, (⟨1⟩ : WS)), (8, ⟨2⟩)])] 1 7 ⟨3⟩).announce
      = Msg.userConnected 7
          (dset (roomOf [(1, [(7, (⟨1⟩ : WS)), (8, ⟨2⟩)])] 1) 7 ⟨3⟩).length ∧
    Eff.sent ⟨2⟩ (Msg.userConnected 7
        (dset (roomOf [(1, [(7, (⟨1⟩ : WS)), (8, ⟨2⟩)])] 1) 7 ⟨3⟩).length) ∈
      (Backend.connect (fun _ => false)
        [(1, [(7, (⟨1⟩ : WS)), (8, ⟨2⟩)])] 1 7 ⟨3⟩).effs) :=
  ⟨by decide, by decide,
    C7_join_notification_on_every_connect [(1, [(7, ⟨1⟩), (8, ⟨2⟩)])] 1 7 8
      ⟨3⟩ ⟨2⟩ (by decide) (by decide)⟩

/-- Claim C8 (counterexample): in `src/app.py`, removing user 7 from the
room that still holds user 8 deletes the entry but issues no broadcast at
all — the remaining member receives no leave notification, contradicting
"a leave presence notification is broadcast to the remaining members". -/
theorem C8_counterexample_app_disconnect_silent :
    (App.disconnect [(1, [(7, (⟨1⟩ : WS)), (8, ⟨2⟩)])] 7).1
      = [(1, [(8, ⟨2⟩)])] ∧
    (App.disconnect [(1, [(7, (⟨1⟩ : WS)), (8, ⟨2⟩)])] 7).2 = [] := by
  decide

/-- Claim C8 (amended): in `src/backend/main.py`, every disconnect of a
present (chat, user) entry schedules a `user_disconnected` broadcast
carrying the departing user id and the post-removal room size, and — run
against the post-removal registry with no send failures — that broadcast
delivers the notification to every remaining member of the room; in
`src/app.py`, `disconnect` issues no notification at all. -/
theorem C8_leave_notification (reg : Registry) (chat u : Nat) (room : Room)
    (hl : dlookup reg chat = some room) (hm : dmem room u = true) :
    (Backend.disconnect reg chat u).scheduled
      = some (chat, Msg.userDisconnected u (ddel room u).length) ∧
    (∀ u' w', u' ≠ u → dlookup room u' = some w' →
      Eff.sent w' (Msg.userDisconnected u (ddel room u).length) ∈
        (Backend.broadcast_to_chat (fun _ => false)
          (Backend.disconnect reg chat u).reg chat
          (Msg.userDisconnected u (ddel room u).length) none).effs) ∧
    (App.disconnect reg u).2 = [] := by
  refine ⟨Backend.disconnect_scheduled_of_mem reg chat u room hl hm, ?_,
    App.disconnect_silent reg u⟩
  intro u' w' hne hmem
  have hmem' : (u', w') ∈ ddel room u :=
    mem_ddel_of_dlookup_ne room u u' w' hmem hne
  have hnonempty : (ddel room u).isEmpty = false := by
    cases he : (ddel room u).isEmpty with
    | false => rfl
    | true =>
      have : ddel room u = [] := by simpa [List.isEmpty_iff] using he
      rw [this] at hmem'
      simp at hmem'
  have hl' : dlookup (Backend.disconnect reg chat u).reg chat
      = some (ddel room u) := by
    rw [Backend.disconnect_reg_of_mem_nonempty reg chat u room hl hm hnonempty]
    exact dlookup_dset_self reg chat (ddel room u)
  exact Backend.broadcast_noFail_delivers _ chat _ none (ddel room u) hl'
    u' w' hmem' (by simp)

/-- Witness for C8: user 7 leaves the room still holding user 8; the
scheduled notification carries count 1 and reaches user 8's session. -/
theorem C8_leave_notification_witness :
    dlookup [(1, [(7, (⟨1⟩ : WS)), (8, ⟨2⟩)])] 1
      = some [(7, (⟨1⟩ : WS)), (8, ⟨2⟩)] ∧
    dmem [(7, (⟨1⟩ : WS)), (8, ⟨2⟩)] 7 = true ∧
    ((Backend.disconnect [(1, [(7, (⟨1⟩ : WS)), (8, ⟨2⟩)])] 1 7).scheduled
      = some (1, Msg.userDisconnected 7
          (ddel [(7, (⟨1⟩ : WS)), (8, ⟨2⟩)] 7).length) ∧
    (∀ u' w', u' ≠ 7 →
      dlookup [(7, (⟨1⟩ : WS)), (8, ⟨2⟩)] u' = some w' →
      Eff.sent w' (Msg.userDisconnected 7
          (ddel [(7, (⟨1⟩ : WS)), (8, ⟨2⟩)] 7).length) ∈
        (Backend.broadcast_to_chat (fun _ => false)
          (Backend.disconnect [(1, [(7, (⟨1⟩ : WS)), (8, ⟨2⟩)])] 1 7).reg 1
          (Msg.userDisconnected 7
            (ddel [(7, (⟨1⟩ : WS)), (8, ⟨2⟩)] 7).length) none).effs) ∧
    (App.disconnect [(1, [(7, (⟨1⟩ : WS)), (8, ⟨2⟩)])] 7).2 = []) :=
  ⟨by decide, by decide,
    C8_leave_notification [(1, [(7, ⟨1⟩), (8, ⟨2⟩)])] 1 7
      [(7, ⟨1⟩), (8, ⟨2⟩)] (by decide) (by decide)⟩

/-- Claim C9: disconnect is idempotent in both variants — after removing
(chat, user), an immediately repeated disconnect finds no entry, changes
nothing, schedules or emits nothing, and does not error. -/
theorem C9_remove_idempotent (reg : Registry) (chat u : Nat) (hWF : WF reg) :
    Backend.disconnect (Backend.disconnect reg chat u).reg chat u
      = ⟨(Backend.disconnect reg chat u).reg, none⟩ ∧
    App.disconnect (App.disconnect reg u).1 u
      = ((App.disconnect reg u).1, []) := by
  constructor
  · apply Backend.disconnect_noop_of_not_mem
    rw [Backend.roomOf_disconnect_self reg chat u hWF.1]
    simp [dmem, dlookup_ddel_self _ u (nodupKeys_roomOf reg chat hWF)]
  · rw [App.disconnect_reg_eq_backend reg u]
    apply App.disconnect_noop
    rw [Backend.roomOf_disconnect_self reg 1 u hWF.1]
    simp [dmem, dlookup_ddel_self _ u (nodupKeys_roomOf reg 1 hWF)]

/-- Witness for C9 at a concrete registry. -/
theorem C9_remove_idempotent_witness :
    WF [(1, [(7, (⟨1⟩ : WS)), (8, ⟨2⟩)])] ∧
    (Backend.disconnect
        (Backend.disconnect [(1, [(7, (⟨1⟩ : WS)), (8, ⟨2⟩)])] 1 7).reg 1 7
      = ⟨(Backend.disconnect
          [(1, [(7, (⟨1⟩ : WS)), (8, ⟨2⟩)])] 1 7).reg, none⟩ ∧
    App.disconnect
        (App.disconnect [(1, [(7, (⟨1⟩ : WS)), (8, ⟨2⟩)])] 7).1 7
      = ((App.disconnect [(1, [(7, (⟨1⟩ : WS)), (8, ⟨2⟩)])] 7).1, [])) :=
  ⟨by decide,
    C9_remove_idempotent [(1, [(7, ⟨1⟩), (8, ⟨2⟩)])] 1 7 (by decide)⟩

/-- Claim C10: the join notification of `src/backend/main.py` (and the
`user_online` one of `src/app.py`) carries `online_count` equal to the room
size measured after the new socket was inserted — a count that includes the
joining user, whose entry is then present — and the `user_disconnected`
notification carries the room size measured after the departing entry was
deleted — a count that excludes that user, whose entry is then absent. -/
theorem C10_presence_counts (reg : Registry) (chat u : Nat) (w : WS)
    (fails : Nat → Bool) (hWF : WF reg) :
    ((Backend.connect fails reg chat u w).announce
        = Msg.userConnected u (dset (roomOf reg chat) u w).length ∧
      dlookup (dset (roomOf reg chat) u w) u = some w) ∧
    (dmem (roomOf reg chat) u = true →
      (Backend.disconnect reg chat u).scheduled
        = some (chat,
            Msg.userDisconnected u (ddel (roomOf reg chat) u).length) ∧
      dlookup (ddel (roomOf reg chat) u) u = none) ∧
    (App.connect fails reg u w).announce
        = Msg.userOnline u (dset (roomOf reg 1) u w).length := by
  refine ⟨⟨Backend.connect_announce fails reg chat u w,
    dlookup_dset_self _ u w⟩, ?_, App.connect_online_announce fails reg u w⟩
  intro hm
  cases hl : dlookup reg chat with
  | none =>
    rw [roomOf, hl] at hm
    simp [dmem, dlookup] at hm
  | some room =>
    have hroom : roomOf reg chat = room := by simp [roomOf, hl]
    rw [hroom] at hm ⊢
    exact ⟨Backend.disconnect_scheduled_of_mem reg chat u room hl hm,
      dlookup_ddel_self room u (hroom ▸ nodupKeys_roomOf reg chat hWF)⟩

/-- Witness for C10: user 7 joins over an existing room and later leaves;
the join count includes them, the leave count excludes them. -/
theorem C10_presence_counts_witness :
    WF [(1, [(7, (⟨1⟩ : WS)), (8, ⟨2⟩)])] ∧
    (((Backend.connect (fun _ => false)
          [(1, [(7, (⟨1⟩ : WS)), (8, ⟨2⟩)])] 1 7 ⟨3⟩).announce
        = Msg.userConnected 7
            (dset (roomOf [(1, [(7, (⟨1⟩ : WS)), (8, ⟨2⟩)])] 1) 7
              ⟨3⟩).length ∧
      dlookup (dset (roomOf [(1, [(7, (⟨1⟩ : WS)), (8, ⟨2⟩)])] 1) 7 ⟨3⟩) 7
        = some ⟨3⟩) ∧
    (dmem (roomOf [(1, [(7, (⟨1⟩ : WS)), (8, ⟨2⟩)])] 1) 7 = true →
      (Backend.disconnect [(1, [(7, (⟨1⟩ : WS)), (8, ⟨2⟩)])] 1 7).scheduled
        = some (1, Msg.userDisconnected 7
            (ddel (roomOf [(1, [(7, (⟨1⟩ : WS)), (8, ⟨2⟩)])] 1) 7).length) ∧
      dlookup (ddel (roomOf [(1, [(7, (⟨1⟩ : WS)), (8, ⟨2⟩)])] 1) 7) 7
        = none) ∧
    (App.connect (fun _ => false)
        [(1, [(7, (⟨1⟩ : WS)), (8, ⟨2⟩)])] 7 ⟨3⟩).announce
      = Msg.userOnline 7
          (dset (roomOf [(1, [(7, (⟨1⟩ : WS)), (8, ⟨2⟩)])] 1) 7 ⟨3⟩).length) :=
  ⟨by decide,
    C10_presence_counts [(1, [(7, ⟨1⟩), (8, ⟨2⟩)])] 1 7 ⟨3⟩ (fun _ => false)
      (by decide)⟩
